import Mathlib

/-!
Shallow embedding of the data pipeline of `src/app.py` (an e-commerce sales
dashboard): column-name cleaning, date-column detection, required-column
validation, and the region/category/date filter engine.
-/

/-- A cell of the tabular dataset: a string, a number, a parsed date
(represented by an integer ordinal that orders chronologically), or a null
(pandas `NaN` / `NaT`). -/
inductive Cell where
  | str (s : String)
  | num (n : Int)
  | date (d : Int)
  | null
deriving DecidableEq

/-- An in-memory table: a header (column names, in order) and rows of cells,
each row aligned positionally with the header. Models a pandas `DataFrame`. -/
structure DataFrame where
  cols : List String
  rows : List (List Cell)
deriving DecidableEq

/-- Decimal digit value of a character, if any. -/
def digitVal (c : Char) : Option Nat :=
  if '0' ≤ c ∧ c ≤ '9' then some (c.toNat - '0'.toNat) else none

/-- Read a nonempty all-digit character list as a number. -/
def natOfCharsAux (acc : Nat) : List Char → Option Nat
  | [] => some acc
  | c :: cs =>
    match digitVal c with
    | some d => natOfCharsAux (acc * 10 + d) cs
    | none => none

/-- Read a character list as a decimal number; empty or non-digit input
fails. -/
def natOfChars : List Char → Option Nat
  | [] => none
  | c :: cs => natOfCharsAux 0 (c :: cs)

/-- Split a character list on the dash separator. -/
def splitOnDash : List Char → List (List Char)
  | [] => [[]]
  | c :: cs =>
    if c = '-' then [] :: splitOnDash cs
    else
      match splitOnDash cs with
      | [] => [[c]]
      | h :: t => (c :: h) :: t

/-- Modelled best-effort date parse of a single string cell, standing in for
the external `pd.to_datetime` parser: accepts ISO `YYYY-MM-DD` strings and
encodes them as `y * 10000 + m * 100 + d` (chronologically monotone); any
other string fails to parse. -/
def parseDateString (s : String) : Option Int :=
  match splitOnDash s.data with
  | [y, m, d] =>
    match natOfChars y, natOfChars m, natOfChars d with
    | some yn, some mn, some dn =>
      if 1 ≤ mn ∧ mn ≤ 12 ∧ 1 ≤ dn ∧ dn ≤ 31 then
        some ((yn : Int) * 10000 + mn * 100 + dn)
      else none
    | _, _, _ => none
  | _ => none

/-- One cell under `pd.to_datetime(column, errors="coerce")` (src/app.py line
43): dates stay dates, numbers convert (epoch interpretation), strings parse
best-effort, and anything unparseable becomes null (`NaT`) instead of
raising. -/
def coerceDate : Cell → Cell
  | Cell.date d => Cell.date d
  | Cell.num n => Cell.date n
  | Cell.null => Cell.null
  | Cell.str s =>
    match parseDateString s with
    | some d => Cell.date d
    | none => Cell.null

/-- View a cell as a date if it is one. -/
def asDate : Cell → Option Int
  | Cell.date d => some d
  | _ => none

/-- Whitespace predicate used by stripping. -/
def ws (c : Char) : Bool := c.isWhitespace

/-- Python `str.strip()` at the character-list level: drop leading and
trailing whitespace. -/
def trimChars (l : List Char) : List Char :=
  ((l.dropWhile ws).reverse.dropWhile ws).reverse

/-- Python `str.replace(" ", "_")`: the pattern is a single character, so the
replacement is a character map. -/
def replSpaces (l : List Char) : List Char :=
  l.map fun c => if c = ' ' then '_' else c

/-- Column-name cleaning (src/app.py lines 36-37): strip leading/trailing
whitespace from the name, then replace every space with an underscore. -/
def cleanName (s : String) : String :=
  String.mk (replSpaces (trimChars s.data))

/-- ASCII lowercasing of one character, as Python `str.lower()` does per
character. -/
def lowerChar (c : Char) : Char :=
  if 'A' ≤ c ∧ c ≤ 'Z' then Char.ofNat (c.toNat + 32) else c

/-- Is `pat` a prefix of the second list? -/
def isPrefixChars : List Char → List Char → Bool
  | [], _ => true
  | _ :: _, [] => false
  | a :: as, b :: bs => a == b && isPrefixChars as bs

/-- Python `pat in s` substring containment at the character-list level. -/
def containsSub (pat : List Char) : List Char → Bool
  | [] => pat.isEmpty
  | c :: cs => isPrefixChars pat (c :: cs) || containsSub pat cs

/-- Does the lowercased name contain the substring "date"
(`"date" in col.lower()`, src/app.py line 41)? -/
def containsDate (s : String) : Bool :=
  containsSub "date".data (s.data.map lowerChar)

/-- First index satisfying the predicate, scanning left to right. -/
def findFirstIdx (p : String → Bool) : List String → Option Nat
  | [] => none
  | c :: cs => if p c then some 0 else (findFirstIdx p cs).map (· + 1)

/-- Index of the column the date-detection loop (src/app.py lines 40-47)
processes: the leftmost cleaned column name containing "date". -/
def dateIdx (df : DataFrame) : Option Nat :=
  findFirstIdx containsDate (df.cols.map cleanName)

/-- Apply the date coercion to position `i` of a row. -/
def parseRowAt (i : Nat) (r : List Cell) : List Cell :=
  r.set i (coerceDate (r.getD i Cell.null))

/-- The Normalizer (src/app.py lines 35-47, inside `load_data`): clean the
column names, then for the leftmost cleaned name containing "date" coerce
that column's cells to dates (`errors="coerce"`, so the conversion returns
instead of raising and the `except` branch is unreachable), rename the column
to the canonical `Order_Date`, and stop scanning (`break`). -/
def normalizeData (df : DataFrame) : DataFrame :=
  let cs := df.cols.map cleanName
  match findFirstIdx containsDate cs with
  | none => ⟨cs, df.rows⟩
  | some i => ⟨cs.set i "Order_Date", df.rows.map (parseRowAt i)⟩

/-- The fixed required-column set (src/app.py line 56). -/
def required_cols : List String := ["Region", "Category", "Sales", "Profit", "Quantity"]

/-- The schema failure surfaced at src/app.py lines 60-63: the missing
required columns and the full list of columns actually present. -/
structure SchemaError where
  missing : List String
  present : List String
deriving DecidableEq

/-- The list comprehension at src/app.py line 58: the required columns absent
from the dataset, in required-column order. -/
def missingCols (df : DataFrame) : List String :=
  required_cols.filter fun c => !(df.cols.contains c)

/-- Required-column check (src/app.py lines 56-63): any missing required
column halts the run with a `SchemaError` naming the missing and the present
columns, otherwise the dataset passes through unchanged. -/
def validate (df : DataFrame) : Except SchemaError DataFrame :=
  if (missingCols df).isEmpty then Except.ok df
  else Except.error ⟨missingCols df, df.cols⟩

/-- Cell of row `r` in the column named `c`: pandas `df[c]`, a positional
lookup through the header. -/
def cellAt (cols : List String) (r : List Cell) (c : String) : Cell :=
  match findFirstIdx (fun x => x == c) cols with
  | some i => r.getD i Cell.null
  | none => Cell.null

/-- Membership test `series.isin(values)` for one cell. -/
def isin (v : Cell) (values : List Cell) : Bool := values.contains v

/-- The categorical filter (src/app.py lines 82-85): keep a row iff its
Region cell is in the selected regions and its Category cell is in the
selected categories. -/
def catFilter (df : DataFrame) (regions categories : List Cell) : DataFrame :=
  ⟨df.cols,
    df.rows.filter fun r =>
      isin (cellAt df.cols r "Region") regions &&
        isin (cellAt df.cols r "Category") categories⟩

/-- Date predicate of src/app.py lines 102-103: both comparisons hold; a null
(`NaT`) compares false on both sides. -/
def dateOk (lo hi : Int) (c : Cell) : Bool :=
  match asDate c with
  | some d => decide (lo ≤ d) && decide (d ≤ hi)
  | none => false

/-- The date filter (src/app.py lines 101-104): keep a row iff its
`Order_Date` cell is an actual date within `[lo, hi]` inclusive. -/
def dateFilter (df : DataFrame) (lo hi : Int) : DataFrame :=
  ⟨df.cols, df.rows.filter fun r => dateOk lo hi (cellAt df.cols r "Order_Date")⟩

/-- A user filter selection: chosen regions, chosen categories, and the date
interval when the date-range widget holds two endpoints. -/
structure Selection where
  regions : List Cell
  categories : List Cell
  interval : Option (Int × Int)

/-- The Filter Engine (src/app.py lines 82-104): categorical filter first,
then the date filter when an `Order_Date` column exists and the widget
supplied a two-endpoint range. -/
def filtered_df (df : DataFrame) (sel : Selection) : DataFrame :=
  let f := catFilter df sel.regions sel.categories
  if "Order_Date" ∈ f.cols then
    match sel.interval with
    | some (lo, hi) => dateFilter f lo hi
    | none => f
  else f

/-- Options and default value of the Region/Category multiselects (src/app.py
lines 70-80): the distinct non-null values of the column. The UI also sorts
them, which does not affect membership, the only way selections are used. -/
def distinctVals (df : DataFrame) (c : String) : List Cell :=
  ((df.rows.map fun r => cellAt df.cols r c).filter fun v => v != Cell.null).dedup

/-- The non-null dates of the `Order_Date` column. -/
def datesOf (df : DataFrame) : List Int :=
  df.rows.filterMap fun r => asDate (cellAt df.cols r "Order_Date")

/-- Default bounds of the date widget (src/app.py lines 91-97): the minimum
and maximum `Order_Date` over the frame it is computed from, skipping nulls
as pandas `min`/`max` do. -/
def defaultInterval (df : DataFrame) : Option (Int × Int) :=
  match (datesOf df).min?, (datesOf df).max? with
  | some lo, some hi => some (lo, hi)
  | _, _ => none

/-- The selection in effect when the user has touched nothing: all distinct
non-null regions and categories, and the full observed date span of the
categorically filtered frame when a date column exists (src/app.py lines
70-97). -/
def defaultSelection (df : DataFrame) : Selection :=
  ⟨distinctVals df "Region", distinctVals df "Category",
    if "Order_Date" ∈ df.cols then
      defaultInterval
        (catFilter df (distinctVals df "Region") (distinctVals df "Category"))
    else none⟩

deriving instance DecidableEq for Except

/-! Helper lemmas about the scanning, stripping and coercion primitives. -/

theorem findFirstIdx_eq_none_iff (p : String → Bool) (l : List String) :
    findFirstIdx p l = none ↔ ∀ x ∈ l, p x = false := by
  induction l with
  | nil => simp [findFirstIdx]
  | cons c cs ih =>
    by_cases h : p c
    · constructor
      · intro hn
        rw [findFirstIdx, if_pos h] at hn
        exact absurd hn (by simp)
      · intro hall
        exact absurd (hall c (by simp)) (by simp [h])
    · rw [findFirstIdx, if_neg h, Option.map_eq_none', ih]
      constructor
      · intro hall x hx
        rcases List.mem_cons.mp hx with rfl | hx2
        · simpa using h
        · exact hall x hx2
      · intro hall x hx
        exact hall x (List.mem_cons_of_mem c hx)

theorem findFirstIdx_isSome (p : String → Bool) (l : List String) :
    (findFirstIdx p l).isSome = l.any p := by
  induction l with
  | nil => simp [findFirstIdx]
  | cons c cs ih =>
    by_cases h : p c
    · simp [findFirstIdx, h]
    · rw [findFirstIdx, if_neg h, List.any_cons]
      simp only [h, Bool.false_or]
      rw [← ih]
      cases findFirstIdx p cs <;> rfl

theorem findFirstIdx_spec (p : String → Bool) (l : List String) (i : Nat) :
    findFirstIdx p l = some i ↔
      i < l.length ∧ p (l.getD i "") = true ∧ ∀ j, j < i → p (l.getD j "") = false := by
  induction l generalizing i with
  | nil => simp [findFirstIdx]
  | cons c cs ih =>
    by_cases h : p c
    · simp only [findFirstIdx, if_pos h]
      constructor
      · rintro ⟨rfl⟩
        exact ⟨by simp, by simpa using h, fun j hj => absurd hj (Nat.not_lt_zero j)⟩
      · rintro ⟨-, -, hmin⟩
        cases i with
        | zero => rfl
        | succ i => exact absurd h (by simpa using hmin 0 (Nat.succ_pos i))
    · simp only [findFirstIdx, if_neg h]
      cases i with
      | zero =>
        simp only [List.getD_cons_zero]
        constructor
        · intro hi
          obtain ⟨k, -, hk⟩ := Option.map_eq_some'.mp hi
          omega
        · rintro ⟨-, hc, -⟩
          exact absurd hc (by simpa using h)
      | succ i =>
        constructor
        · intro hi
          obtain ⟨k, hk, hk2⟩ := Option.map_eq_some'.mp hi
          rw [show k = i from by omega] at hk
          obtain ⟨h1, h2, h3⟩ := (ih i).mp hk
          refine ⟨by simpa using h1, by simpa using h2, ?_⟩
          intro j hj
          cases j with
          | zero => simpa using h
          | succ j => simpa using h3 j (by omega)
        · rintro ⟨h1, h2, h3⟩
          have hcs : findFirstIdx p cs = some i := by
            refine (ih i).mpr ⟨by simpa using h1, by simpa using h2, ?_⟩
            intro j hj
            simpa using h3 (j + 1) (by omega)
          simp [hcs]

theorem dropWhile_head?_false {α : Type} (p : α → Bool) (l : List α) (c : α)
    (h : (l.dropWhile p).head? = some c) : p c = false := by
  induction l with
  | nil => simp [List.dropWhile] at h
  | cons a t ih =>
    by_cases hp : p a
    · rw [List.dropWhile_cons_of_pos hp] at h
      exact ih h
    · rw [List.dropWhile_cons_of_neg hp] at h
      simp only [List.head?_cons, Option.some.injEq] at h
      subst h
      simpa using hp

theorem dropWhile_getLast? {α : Type} (p : α → Bool) (l : List α)
    (h : l.dropWhile p ≠ []) : (l.dropWhile p).getLast? = l.getLast? := by
  induction l with
  | nil => simp [List.dropWhile] at h
  | cons a t ih =>
    by_cases hp : p a
    · rw [List.dropWhile_cons_of_pos hp] at h ⊢
      have ht : t ≠ [] := by
        rintro rfl
        simp [List.dropWhile] at h
      rw [ih h]
      cases t with
      | nil => exact absurd rfl ht
      | cons b t2 => simp
    · rw [List.dropWhile_cons_of_neg hp]

theorem dropWhile_eq_self_of_head? {α : Type} (p : α → Bool) (l : List α)
    (h : ∀ c, l.head? = some c → p c = false) : l.dropWhile p = l := by
  cases l with
  | nil => rfl
  | cons a t => exact List.dropWhile_cons_of_neg (by simpa using h a rfl)

theorem trimChars_head? (l : List Char) (c : Char)
    (h : (trimChars l).head? = some c) : ws c = false := by
  unfold trimChars at h
  rw [List.head?_reverse] at h
  rcases hz : ((l.dropWhile ws).reverse.dropWhile ws) with _ | ⟨z, zs⟩
  · rw [hz] at h
    simp at h
  · rw [hz] at h
    have hne : (l.dropWhile ws).reverse.dropWhile ws ≠ [] := by simp [hz]
    rw [← hz, dropWhile_getLast? ws _ hne, List.getLast?_reverse] at h
    exact dropWhile_head?_false ws l c h

theorem trimChars_getLast? (l : List Char) (c : Char)
    (h : (trimChars l).getLast? = some c) : ws c = false := by
  unfold trimChars at h
  rw [List.getLast?_reverse] at h
  exact dropWhile_head?_false ws _ c h

theorem trimChars_eq_self (l : List Char)
    (h1 : ∀ c, l.head? = some c → ws c = false)
    (h2 : ∀ c, l.getLast? = some c → ws c = false) : trimChars l = l := by
  unfold trimChars
  rw [dropWhile_eq_self_of_head? ws l h1]
  rw [dropWhile_eq_self_of_head? ws l.reverse (by simpa [List.head?_reverse] using h2)]
  exact List.reverse_reverse l

theorem ws_replChar (c : Char) : ws (if c = ' ' then '_' else c) = false ∨
    (if c = ' ' then '_' else c) = c := by
  by_cases h : c = ' '
  · subst h
    left
    decide
  · right
    simp [h]

theorem replSpaces_idem (l : List Char) : replSpaces (replSpaces l) = replSpaces l := by
  unfold replSpaces
  rw [List.map_map]
  apply List.map_congr_left
  intro c _
  by_cases h : c = ' ' <;> simp [Function.comp, h]

theorem cleanName_idem (s : String) : cleanName (cleanName s) = cleanName s := by
  show String.mk (replSpaces (trimChars (replSpaces (trimChars s.data)))) = _
  have htrim : trimChars (replSpaces (trimChars s.data)) = replSpaces (trimChars s.data) := by
    apply trimChars_eq_self
    · intro c hc
      rw [show replSpaces (trimChars s.data)
            = (trimChars s.data).map (fun c => if c = ' ' then '_' else c) from rfl,
          List.head?_map] at hc
      obtain ⟨c0, hc0, hc1⟩ := Option.map_eq_some'.mp hc
      have := trimChars_head? _ _ hc0
      rcases ws_replChar c0 with hw | hw
      · rw [← hc1]; exact hw
      · rw [← hc1, hw]; exact this
    · intro c hc
      rw [show replSpaces (trimChars s.data)
            = (trimChars s.data).map (fun c => if c = ' ' then '_' else c) from rfl,
          List.getLast?_map] at hc
      obtain ⟨c0, hc0, hc1⟩ := Option.map_eq_some'.mp hc
      have := trimChars_getLast? _ _ hc0
      rcases ws_replChar c0 with hw | hw
      · rw [← hc1]; exact hw
      · rw [← hc1, hw]; exact this
  rw [htrim, replSpaces_idem]
  rfl

theorem coerceDate_idem (c : Cell) : coerceDate (coerceDate c) = coerceDate c := by
  cases c with
  | str s =>
    rcases hp : parseDateString s with _ | d <;> simp [coerceDate, hp]
  | num n => rfl
  | date d => rfl
  | null => rfl

theorem parseRowAt_idem (i : Nat) (r : List Cell) :
    parseRowAt i (parseRowAt i r) = parseRowAt i r := by
  unfold parseRowAt
  by_cases h : i < r.length
  · rw [List.set_set]
    congr 1
    rw [List.getD_eq_getElem?_getD, List.getElem?_set_self h]
    simp [coerceDate_idem]
  · have hle : r.length ≤ i := by omega
    rw [List.set_eq_of_length_le hle, List.set_eq_of_length_le hle]

theorem cleanName_OrderDate : cleanName "Order_Date" = "Order_Date" := by decide

theorem containsDate_OrderDate : containsDate "Order_Date" = true := by decide

theorem map_cleanName_cleaned (l : List String) :
    (l.map cleanName).map cleanName = l.map cleanName := by
  rw [List.map_map]
  apply List.map_congr_left
  intro s _
  exact cleanName_idem s

theorem normalizeData_none (df : DataFrame) (h : dateIdx df = none) :
    normalizeData df = ⟨df.cols.map cleanName, df.rows⟩ := by
  unfold normalizeData
  unfold dateIdx at h
  simp [h]

theorem normalizeData_some (df : DataFrame) (i : Nat) (h : dateIdx df = some i) :
    normalizeData df
      = ⟨(df.cols.map cleanName).set i "Order_Date", df.rows.map (parseRowAt i)⟩ := by
  unfold normalizeData
  unfold dateIdx at h
  simp [h]

theorem contains_iff_mem {α : Type} [DecidableEq α] {l : List α} {a : α} :
    l.contains a = true ↔ a ∈ l := by
  induction l with
  | nil => simp
  | cons b t ih =>
    rw [List.contains_cons]
    by_cases h : a = b <;> simp [h, ih]

/-- C5: the Normalizer is idempotent: cleaning the column names and running
date detection a second time changes neither the column names nor any cell
value. -/
theorem normalizer_idempotent (df : DataFrame) :
    normalizeData (normalizeData df) = normalizeData df := by
  cases hidx : dateIdx df with
  | none =>
    rw [normalizeData_none df hidx]
    have h2 : dateIdx ⟨df.cols.map cleanName, df.rows⟩ = none := by
      show findFirstIdx containsDate ((df.cols.map cleanName).map cleanName) = none
      rw [map_cleanName_cleaned]
      exact hidx
    rw [normalizeData_none _ h2]
    simp only [DataFrame.mk.injEq, and_true]
    exact map_cleanName_cleaned df.cols
  | some i =>
    have hidx2 : findFirstIdx containsDate (df.cols.map cleanName) = some i := hidx
    obtain ⟨hlen, hp, hmin⟩ :=
      (findFirstIdx_spec containsDate (df.cols.map cleanName) i).mp hidx2
    have hcols : ((df.cols.map cleanName).set i "Order_Date").map cleanName
        = (df.cols.map cleanName).set i "Order_Date" := by
      rw [List.map_set, map_cleanName_cleaned, cleanName_OrderDate]
    have houtidx : dateIdx ⟨(df.cols.map cleanName).set i "Order_Date",
        df.rows.map (parseRowAt i)⟩ = some i := by
      show findFirstIdx containsDate
        (((df.cols.map cleanName).set i "Order_Date").map cleanName) = some i
      rw [hcols]
      apply (findFirstIdx_spec _ _ _).mpr
      refine ⟨by simpa using hlen, ?_, ?_⟩
      · rw [List.getD_eq_getElem?_getD, List.getElem?_set_self hlen]
        simpa using containsDate_OrderDate
      · intro j hj
        rw [List.getD_eq_getElem?_getD, List.getElem?_set_ne (by omega),
          ← List.getD_eq_getElem?_getD]
        exact hmin j hj
    rw [normalizeData_some df i hidx, normalizeData_some _ i houtidx]
    simp only [DataFrame.mk.injEq]
    constructor
    · rw [hcols, List.set_set]
    · rw [List.map_map]
      apply List.map_congr_left
      intro r _
      exact parseRowAt_idem i r

/-- C6: the Normalizer is a total function; it preserves the row count, and
in every row every cell outside the detected date column is unchanged. -/
theorem normalizer_total_frame (df : DataFrame) :
    (normalizeData df).rows.length = df.rows.length ∧
    ∀ n j, (∀ i, dateIdx df = some i → j ≠ i) →
      ((normalizeData df).rows.getD n []).getD j Cell.null
        = (df.rows.getD n []).getD j Cell.null := by
  cases hidx : dateIdx df with
  | none =>
    rw [normalizeData_none df hidx]
    exact ⟨rfl, fun n j h => rfl⟩
  | some i =>
    rw [normalizeData_some df i hidx]
    refine ⟨by simp, ?_⟩
    intro n j hj
    have hne : j ≠ i := hj i rfl
    show ((df.rows.map (parseRowAt i)).getD n []).getD j Cell.null = _
    rw [List.getD_eq_getElem?_getD (df.rows.map (parseRowAt i)), List.getElem?_map,
      List.getD_eq_getElem?_getD df.rows]
    cases hr : df.rows[n]? with
    | none => rfl
    | some r =>
      show (parseRowAt i r).getD j Cell.null = r.getD j Cell.null
      unfold parseRowAt
      rw [List.getD_eq_getElem?_getD, List.getElem?_set_ne (by omega),
        ← List.getD_eq_getElem?_getD]

/-- Concrete dataset for the C6 witness: one detectable date column and one
other column. -/
def exC6 : DataFrame :=
  ⟨["Order Date", "Region"], [[Cell.str "2024-01-02", Cell.str "South"]]⟩

/-- Witness for C6 at a concrete dataset: the row count is preserved and the
Region cell of the first row is unchanged. -/
theorem normalizer_total_frame_witness :
    (normalizeData exC6).rows.length = exC6.rows.length ∧
    ((normalizeData exC6).rows.getD 0 []).getD 1 Cell.null
      = (exC6.rows.getD 0 []).getD 1 Cell.null :=
  ⟨(normalizer_total_frame exC6).1,
    (normalizer_total_frame exC6).2 0 1 (by
      intro i hi
      have h0 : dateIdx exC6 = some 0 := by decide
      rw [h0] at hi
      cases hi
      decide)⟩

/-- C7: when the detection loop designates a column, it is the leftmost one
whose cleaned name contains "date" (case-insensitive), it alone is renamed to
the canonical `Order_Date`, and no other column is designated. -/
theorem date_detection_leftmost (df : DataFrame) :
    ∀ i, dateIdx df = some i →
      i < df.cols.length ∧
      containsDate ((df.cols.map cleanName).getD i "") = true ∧
      (∀ j, j < i → containsDate ((df.cols.map cleanName).getD j "") = false) ∧
      (normalizeData df).cols = (df.cols.map cleanName).set i "Order_Date" := by
  intro i hidx
  have hidx2 : findFirstIdx containsDate (df.cols.map cleanName) = some i := hidx
  obtain ⟨h1, h2, h3⟩ := (findFirstIdx_spec containsDate (df.cols.map cleanName) i).mp hidx2
  exact ⟨by simpa using h1, h2, h3, by rw [normalizeData_some df i hidx]⟩

/-- Concrete dataset for the C7 witness: two columns whose names contain
"date"; the leftmost wins (the spec's known `Updated_Date` ambiguity). -/
def exC7 : DataFrame :=
  ⟨["Updated Date", "Order Date"],
    [[Cell.str "2024-01-02", Cell.str "2024-03-04"]]⟩

/-- Witness for C7 at a concrete dataset with two "date" columns: index 0 is
designated and only it is renamed. -/
theorem date_detection_leftmost_witness :
    0 < exC7.cols.length ∧
    (normalizeData exC7).cols = (exC7.cols.map cleanName).set 0 "Order_Date" :=
  ⟨(date_detection_leftmost exC7 0 (by decide)).1,
    (date_detection_leftmost exC7 0 (by decide)).2.2.2⟩

/-- The one-column dataset used to settle C2: its column name contains
"date" but its only cell is unparseable. -/
def exC2 : DataFrame := ⟨["my_date"], [[Cell.str "hello"]]⟩

/-- C2 counterexample: in `exC2` no cell of the matching column parses as a
date, yet the column is designated anyway: it is renamed to `Order_Date` and
its cell is coerced to null. Parseability plays no role in designation. -/
theorem date_detection_unparsed_designated :
    parseDateString "hello" = none ∧
    (normalizeData exC2).cols = ["Order_Date"] ∧
    (normalizeData exC2).rows = [[Cell.null]] :=
  ⟨by decide, by decide, by decide⟩

/-- C2 (amended): the Normalizer designates a canonical date column exactly
when some cleaned column name contains "date" (case-insensitive) — the cell
values play no role in designation — and every cell of the designated column
is coerced: parseable cells become dates, unparseable cells become null
rather than aborting. -/
theorem date_detection_name_only (df : DataFrame) :
    (dateIdx df).isSome = (df.cols.map cleanName).any containsDate ∧
    (∀ s, parseDateString s = none → coerceDate (Cell.str s) = Cell.null) ∧
    (∀ i, dateIdx df = some i → ∀ n,
      ((normalizeData df).rows.getD n []).getD i Cell.null
        = coerceDate ((df.rows.getD n []).getD i Cell.null)) := by
  refine ⟨findFirstIdx_isSome _ _, ?_, ?_⟩
  · intro s hs
    simp [coerceDate, hs]
  · intro i hidx n
    rw [normalizeData_some df i hidx]
    show ((df.rows.map (parseRowAt i)).getD n []).getD i Cell.null = _
    rw [List.getD_eq_getElem?_getD (df.rows.map (parseRowAt i)), List.getElem?_map,
      List.getD_eq_getElem?_getD df.rows]
    cases hr : df.rows[n]? with
    | none => rfl
    | some r =>
      show (parseRowAt i r).getD i Cell.null = coerceDate (r.getD i Cell.null)
      unfold parseRowAt
      by_cases h : i < r.length
      · rw [List.getD_eq_getElem?_getD, List.getElem?_set_self h]
        rfl
      · rw [List.set_eq_of_length_le (by omega), List.getD_eq_getElem?_getD,
          List.getElem?_eq_none (by omega)]
        rfl

/-- Witness for C2's amended statement at `exC2`: the designation test agrees
with name scanning, the unparseable cell coerces to null, and the normalized
cell equals the coercion of the original cell. -/
theorem date_detection_name_only_witness :
    (dateIdx exC2).isSome = (exC2.cols.map cleanName).any containsDate ∧
    coerceDate (Cell.str "hello") = Cell.null ∧
    ((normalizeData exC2).rows.getD 0 []).getD 0 Cell.null
      = coerceDate ((exC2.rows.getD 0 []).getD 0 Cell.null) :=
  ⟨(date_detection_name_only exC2).1,
    (date_detection_name_only exC2).2.1 "hello" (by decide),
    (date_detection_name_only exC2).2.2 0 (by decide) 0⟩

/-- C3: the Validator fails exactly when a required column is absent; the
error lists exactly the missing required columns (set equality) together with
all columns actually present; otherwise the dataset passes through
unchanged. -/
theorem validator_schema_check (df : DataFrame) :
    ((∀ c ∈ required_cols, c ∈ df.cols) → validate df = Except.ok df) ∧
    ((∃ c ∈ required_cols, c ∉ df.cols) →
      ∃ e : SchemaError, validate df = Except.error e ∧
        (∀ c, c ∈ e.missing ↔ (c ∈ required_cols ∧ c ∉ df.cols)) ∧
        e.present = df.cols) := by
  constructor
  · intro hall
    have hnil : missingCols df = [] := by
      rw [missingCols, List.filter_eq_nil_iff]
      intro c hc
      simpa using hall c hc
    unfold validate
    rw [hnil]
    rfl
  · rintro ⟨c, hc, hnc⟩
    have hmem : c ∈ missingCols df := by
      rw [missingCols, List.mem_filter]
      exact ⟨hc, by simpa using hnc⟩
    have hne : (missingCols df).isEmpty = false := by
      apply Bool.eq_false_iff.mpr
      intro h
      rw [List.isEmpty_iff.mp h] at hmem
      cases hmem
    refine ⟨⟨missingCols df, df.cols⟩, ?_, ?_, rfl⟩
    · unfold validate
      rw [hne]
      rfl
    · intro x
      show x ∈ missingCols df ↔ _
      rw [missingCols, List.mem_filter]
      constructor
      · rintro ⟨hq1, hq2⟩
        exact ⟨hq1, by simpa using hq2⟩
      · rintro ⟨hq1, hq2⟩
        exact ⟨hq1, by simpa using hq2⟩

/-- Complete dataset for the C3 witness. -/
def exC3ok : DataFrame :=
  ⟨["Region", "Category", "Sales", "Profit", "Quantity"], []⟩

/-- Dataset missing Category, Profit and Quantity for the C3 witness. -/
def exC3bad : DataFrame := ⟨["Region", "Sales"], []⟩

/-- Witness for C3 at concrete datasets: a complete one passes through, an
incomplete one fails with exactly the missing set and the present columns. -/
theorem validator_schema_check_witness :
    validate exC3ok = Except.ok exC3ok ∧
    ∃ e : SchemaError, validate exC3bad = Except.error e ∧
      (∀ c, c ∈ e.missing ↔ (c ∈ required_cols ∧ c ∉ exC3bad.cols)) ∧
      e.present = exC3bad.cols :=
  ⟨(validator_schema_check exC3ok).1 (by decide),
    (validator_schema_check exC3bad).2 ⟨"Category", by decide, by decide⟩⟩

/-- C8: cleaning maps each column name in place (order preserved) through
strip-then-replace; the header " Order Date " becomes `Order_Date`, and in a
dataset headed by it the column is then recognized and renamed to the
canonical date identifier. -/
theorem column_cleaning_spec :
    (∀ cols : List String, (cols.map cleanName).length = cols.length ∧
      ∀ j, (cols.map cleanName).getD j "" = cleanName (cols.getD j "")) ∧
    cleanName " Order Date " = "Order_Date" ∧
    (normalizeData
        ⟨[" Order Date ", "Region"],
          [[Cell.str "2024-01-05", Cell.str "South"]]⟩).cols
      = ["Order_Date", "Region"] := by
  refine ⟨?_, by decide, by decide⟩
  intro cols
  refine ⟨by simp, ?_⟩
  intro j
  rw [List.getD_eq_getElem?_getD, List.getElem?_map, List.getD_eq_getElem?_getD]
  cases hc : cols[j]? with
  | none => decide
  | some s => rfl

theorem dateOk_iff (lo hi : Int) (c : Cell) :
    dateOk lo hi c = true ↔ ∃ d, asDate c = some d ∧ lo ≤ d ∧ d ≤ hi := by
  unfold dateOk
  rcases h : asDate c with _ | d <;> simp

theorem filtered_df_eq_dateFilter (df : DataFrame) (sel : Selection) (lo hi : Int)
    (hcol : "Order_Date" ∈ df.cols) (hint : sel.interval = some (lo, hi)) :
    filtered_df df sel = dateFilter (catFilter df sel.regions sel.categories) lo hi := by
  obtain ⟨rs, cs, intv⟩ := sel
  have hint2 : intv = some (lo, hi) := hint
  subst hint2
  simp only [filtered_df]
  rw [if_pos (show "Order_Date" ∈ (catFilter df rs cs).cols from hcol)]

theorem filtered_df_no_interval (df : DataFrame) (sel : Selection)
    (hint : sel.interval = none) :
    filtered_df df sel = catFilter df sel.regions sel.categories := by
  obtain ⟨rs, cs, intv⟩ := sel
  have hint2 : intv = none := hint
  subst hint2
  simp only [filtered_df]
  split <;> rfl

theorem filtered_df_no_datecol (df : DataFrame) (sel : Selection)
    (hcol : "Order_Date" ∉ df.cols) :
    filtered_df df sel = catFilter df sel.regions sel.categories := by
  obtain ⟨rs, cs, intv⟩ := sel
  simp only [filtered_df]
  rw [if_neg (show ¬ "Order_Date" ∈ (catFilter df rs cs).cols from hcol)]

/-- C4: with a date column present and a two-endpoint range active, the date
filtering stage retains a row iff its `Order_Date` value is a non-null date
inside `[lo, hi]` inclusive; an inverted range (`hi < lo`) yields zero rows,
and the engine is a total function, so no error is raised. -/
theorem date_filter_semantics (df : DataFrame) (sel : Selection) (lo hi : Int)
    (hcol : "Order_Date" ∈ df.cols) (hint : sel.interval = some (lo, hi)) :
    (∀ r, r ∈ (filtered_df df sel).rows ↔
        r ∈ (catFilter df sel.regions sel.categories).rows ∧
        ∃ d, asDate (cellAt df.cols r "Order_Date") = some d ∧ lo ≤ d ∧ d ≤ hi) ∧
    (hi < lo → (filtered_df df sel).rows = []) := by
  rw [filtered_df_eq_dateFilter df sel lo hi hcol hint]
  simp only [dateFilter, catFilter]
  constructor
  · intro r
    simp only [List.mem_filter, dateOk_iff]
  · intro hlt
    rw [List.filter_eq_nil_iff]
    intro r hr hok
    obtain ⟨d, hd, h1, h2⟩ := (dateOk_iff lo hi _).mp hok
    omega

/-- Dataset and selections for the C4 witness. -/
def exC4 : DataFrame :=
  ⟨["Order_Date", "Region", "Category"],
    [[Cell.date 5, Cell.str "S", Cell.str "A"]]⟩

/-- Witness for C4: with the inverted range `[7, 3]` the view of `exC4` has
zero rows. -/
theorem date_filter_semantics_witness :
    (filtered_df exC4 ⟨[Cell.str "S"], [Cell.str "A"], some (7, 3)⟩).rows = [] :=
  (date_filter_semantics exC4 ⟨[Cell.str "S"], [Cell.str "A"], some (7, 3)⟩ 7 3
    (by decide) (by decide)).2 (by decide)

/-- C9: an empty region selection yields a view with zero rows, whatever the
category selection and date interval are. -/
theorem empty_region_zero_rows (df : DataFrame) (sel : Selection)
    (h : sel.regions = []) : (filtered_df df sel).rows = [] := by
  have hcat : (catFilter df sel.regions sel.categories).rows = [] := by
    simp only [catFilter, h]
    simp [isin]
  by_cases hcol : "Order_Date" ∈ df.cols
  · cases hint : sel.interval with
    | none =>
      rw [filtered_df_no_interval df sel hint]
      exact hcat
    | some p =>
      obtain ⟨lo, hi⟩ := p
      rw [filtered_df_eq_dateFilter df sel lo hi hcol hint]
      simp only [dateFilter]
      rw [hcat]
      rfl
  · rw [filtered_df_no_datecol df sel hcol]
    exact hcat

/-- Dataset for the C9 witness. -/
def exC9 : DataFrame := ⟨["Region", "Category"], [[Cell.str "S", Cell.str "A"]]⟩

/-- Witness for C9: the empty region selection empties the view of `exC9`
even though its only row matches the category selection. -/
theorem empty_region_zero_rows_witness :
    (filtered_df exC9 ⟨[], [Cell.str "A"], some (0, 9)⟩).rows = [] :=
  empty_region_zero_rows exC9 ⟨[], [Cell.str "A"], some (0, 9)⟩ rfl

theorem filtered_rows_in_catFilter (df : DataFrame) (sel : Selection) (r : List Cell)
    (h : r ∈ (filtered_df df sel).rows) :
    r ∈ (catFilter df sel.regions sel.categories).rows := by
  by_cases hcol : "Order_Date" ∈ df.cols
  · cases hint : sel.interval with
    | none =>
      rw [filtered_df_no_interval df sel hint] at h
      exact h
    | some p =>
      obtain ⟨lo, hi⟩ := p
      rw [filtered_df_eq_dateFilter df sel lo hi hcol hint] at h
      simp only [dateFilter] at h
      exact (List.mem_filter.mp h).1
  · rw [filtered_df_no_datecol df sel hcol] at h
    exact h

/-- C10: selections without a null value — which includes everything the UI
can produce, its options being the distinct non-null values, and in
particular the default selection — never let a row with a null Region or a
null Category cell into the view. -/
theorem no_null_region_category_in_view (df : DataFrame) (sel : Selection)
    (hr : Cell.null ∉ sel.regions) (hc : Cell.null ∉ sel.categories) :
    (Cell.null ∉ (defaultSelection df).regions ∧
      Cell.null ∉ (defaultSelection df).categories) ∧
    ∀ r ∈ (filtered_df df sel).rows,
      cellAt df.cols r "Region" ≠ Cell.null ∧
        cellAt df.cols r "Category" ≠ Cell.null := by
  refine ⟨⟨?_, ?_⟩, ?_⟩
  · show Cell.null ∉ distinctVals df "Region"
    simp [distinctVals]
  · show Cell.null ∉ distinctVals df "Category"
    simp [distinctVals]
  · intro r hmem
    have h2 := filtered_rows_in_catFilter df sel r hmem
    simp only [catFilter] at h2
    rw [List.mem_filter] at h2
    obtain ⟨-, hp⟩ := h2
    rw [Bool.and_eq_true] at hp
    obtain ⟨hp1, hp2⟩ := hp
    unfold isin at hp1 hp2
    constructor
    · intro hnull
      rw [hnull] at hp1
      exact hr (contains_iff_mem.mp hp1)
    · intro hnull
      rw [hnull] at hp2
      exact hc (contains_iff_mem.mp hp2)

/-- Dataset for the C10 witness: one row with a null Region, one clean row. -/
def exC10 : DataFrame :=
  ⟨["Region", "Category"],
    [[Cell.null, Cell.str "A"], [Cell.str "S", Cell.str "A"]]⟩

/-- Witness for C10: the clean row is in the view under a null-free selection
and its Region and Category cells are non-null. -/
theorem no_null_region_category_in_view_witness :
    cellAt exC10.cols [Cell.str "S", Cell.str "A"] "Region" ≠ Cell.null ∧
    cellAt exC10.cols [Cell.str "S", Cell.str "A"] "Category" ≠ Cell.null :=
  (no_null_region_category_in_view exC10
    ⟨[Cell.str "S"], [Cell.str "A"], none⟩ (by decide) (by decide)).2
    [Cell.str "S", Cell.str "A"] (by decide)

/-- Dataset for the C1 counterexample: it passes validation but its only row
has a null Region cell. -/
def exC1 : DataFrame :=
  ⟨["Region", "Category", "Sales", "Profit", "Quantity"],
    [[Cell.null, Cell.str "A", Cell.num 10, Cell.num 2, Cell.num 1]]⟩

/-- C1 counterexample: `exC1` passes validation, yet under the full default
selection — whose options are only the distinct non-null values — the row
with the null Region is dropped, so the view is not the input dataset. -/
theorem filter_default_drops_null_region :
    validate exC1 = Except.ok exC1 ∧
    filtered_df exC1 (defaultSelection exC1) ≠ exC1 :=
  ⟨by decide, by decide⟩

theorem defaultInterval_eq_some (df : DataFrame) (lo hi : Int)
    (h : defaultInterval df = some (lo, hi)) :
    (datesOf df).min? = some lo ∧ (datesOf df).max? = some hi := by
  unfold defaultInterval at h
  rcases hmin : (datesOf df).min? with _ | a <;> rw [hmin] at h
  · cases h
  · rcases hmax : (datesOf df).max? with _ | b <;> rw [hmax] at h
    · cases h
    · simp only [Option.some.injEq, Prod.mk.injEq] at h
      obtain ⟨h1, h2⟩ := h
      subst h1
      subst h2
      exact ⟨rfl, rfl⟩

/-- C1 (amended): for a dataset that passes validation and has no null
Region cell, no null Category cell, and — when the canonical date column
exists — no null date cell, the Filter Engine under the full default
selection (all distinct non-null regions and categories, full observed date
span) returns the dataset unchanged, row for row, order preserved. -/
theorem filter_default_identity (df : DataFrame)
    (hv : validate df = Except.ok df)
    (hreg : ∀ r ∈ df.rows, cellAt df.cols r "Region" ≠ Cell.null)
    (hcat2 : ∀ r ∈ df.rows, cellAt df.cols r "Category" ≠ Cell.null)
    (hdate : "Order_Date" ∈ df.cols →
      ∀ r ∈ df.rows, (asDate (cellAt df.cols r "Order_Date")).isSome) :
    filtered_df df (defaultSelection df) = df := by
  have hrows : (df.rows.filter fun r =>
      isin (cellAt df.cols r "Region") (distinctVals df "Region") &&
        isin (cellAt df.cols r "Category") (distinctVals df "Category")) = df.rows := by
    rw [List.filter_eq_self]
    intro r hrr
    have h1 : isin (cellAt df.cols r "Region") (distinctVals df "Region") = true := by
      unfold isin
      apply contains_iff_mem.mpr
      unfold distinctVals
      rw [List.mem_dedup, List.mem_filter]
      refine ⟨List.mem_map.mpr ⟨r, hrr, rfl⟩, ?_⟩
      simpa using hreg r hrr
    have h2 : isin (cellAt df.cols r "Category") (distinctVals df "Category") = true := by
      unfold isin
      apply contains_iff_mem.mpr
      unfold distinctVals
      rw [List.mem_dedup, List.mem_filter]
      refine ⟨List.mem_map.mpr ⟨r, hrr, rfl⟩, ?_⟩
      simpa using hcat2 r hrr
    show (isin (cellAt df.cols r "Region") (distinctVals df "Region") &&
      isin (cellAt df.cols r "Category") (distinctVals df "Category")) = true
    rw [h1, h2]
    rfl
  have hcf : catFilter df (distinctVals df "Region") (distinctVals df "Category") = df := by
    unfold catFilter
    rw [hrows]
  have hcf2 : catFilter df (defaultSelection df).regions (defaultSelection df).categories
      = df := hcf
  by_cases hod : "Order_Date" ∈ df.cols
  · have hint : (defaultSelection df).interval = defaultInterval df := by
      show (if "Order_Date" ∈ df.cols then
        defaultInterval
          (catFilter df (distinctVals df "Region") (distinctVals df "Category"))
        else none) = defaultInterval df
      rw [if_pos hod, hcf]
    cases hdi : defaultInterval df with
    | none =>
      rw [filtered_df_no_interval df _ (hint.trans hdi)]
      exact hcf2
    | some p =>
      obtain ⟨lo, hi⟩ := p
      rw [filtered_df_eq_dateFilter df _ lo hi hod (hint.trans hdi), hcf2]
      obtain ⟨hmin, hmax⟩ := defaultInterval_eq_some df lo hi hdi
      have hfil : (df.rows.filter fun r =>
          dateOk lo hi (cellAt df.cols r "Order_Date")) = df.rows := by
        rw [List.filter_eq_self]
        intro r hrr
        obtain ⟨d, hd⟩ := Option.isSome_iff_exists.mp (hdate hod r hrr)
        have hdm : d ∈ datesOf df := by
          unfold datesOf
          exact List.mem_filterMap.mpr ⟨r, hrr, hd⟩
        show dateOk lo hi (cellAt df.cols r "Order_Date") = true
        rw [dateOk_iff]
        exact ⟨d, hd,
          (List.le_min?_iff (fun a b c => le_min_iff) hmin).mp (le_refl lo) d hdm,
          (List.max?_le_iff (fun a b c => max_le_iff) hmax).mp (le_refl hi) d hdm⟩
      unfold dateFilter
      rw [hfil]
  · rw [filtered_df_no_datecol df _ hod]
    exact hcf2

/-- Clean dataset for the C1 witness: validated, no null cells, a proper
date column. -/
def exC1w : DataFrame :=
  ⟨["Order_Date", "Region", "Category", "Sales", "Profit", "Quantity"],
    [[Cell.date 20240105, Cell.str "South", Cell.str "Tech",
        Cell.num 100, Cell.num 20, Cell.num 3],
      [Cell.date 20240206, Cell.str "North", Cell.str "Home",
        Cell.num 50, Cell.num 5, Cell.num 2]]⟩

/-- Witness for C1's amended statement: the full default selection leaves
`exC1w` untouched. -/
theorem filter_default_identity_witness :
    filtered_df exC1w (defaultSelection exC1w) = exC1w :=
  filter_default_identity exC1w (by decide) (by decide) (by decide) (by decide)
